import Mathlib

/-!
Shallow embedding of the ranked-choice (instant-runoff) tabulation engine of
stl-book-club-v2: the function calculate_ranked_choice_winner in
src/stl_book_club_v2/app.py, lines 164 to 318.

Modelling conventions:
* The python dict of votes (voter name to ranked list of book ids) is modelled
  by its list of values in insertion order; the engine reads only
  votes.values() and len(votes), and len(dict) equals len(values).
* Python dicts with string keys are modelled as association lists kept in
  insertion order; a missing key is modelled as winner = none or
  majority_win = false, matching how the display code reads them with get.
* The python set active_book_ids is modelled as a duplicate-free list whose
  iteration order is realized as book-nomination order (the design notes of
  the spec record that the source order is hash-based and must be made
  deterministic).
* The python float comparison count > total_votes / 2 is modelled over ℚ,
  which agrees with the float semantics at these magnitudes.
* The python truthiness test at line 212 (if majority_winner:) is modelled by
  truthyId: both None and the empty string are falsy there.
-/

/-- The empty book identity. It is used where python indexes a list whose
bounds are known, and it is the one falsy string of the truthiness test at
line 212 of the source. -/
def emptyId : String := ""

/-- A book nomination (the dataclass Book, lines 25 to 37). The engine reads
only the id field; the display attributes are opaque to tabulation. -/
structure Book where
  title : String
  author : String
  description : String
  genre : String
  page_count : Int
  id : String
deriving DecidableEq

/-- One ranked ballot: a list of book ids, most preferred first. -/
abbrev Ballot := List String

/-- One round record (the python dict round_data, lines 213 to 316). -/
structure Round where
  round_number : Nat
  vote_counts : List (String × Nat)
  active_books : Nat
  eliminated : Option String
  winner : Option String
  majority_win : Bool
deriving DecidableEq

/-- vote_counts[book_id] += 1 on the association-list model of a python
dict (lines 198 and 258; the key is always present there). -/
def bump (key : String) (counts : List (String × Nat)) : List (String × Nat) :=
  counts.map (fun p => if p.1 = key then (p.1, p.2 + 1) else p)

/-- Lines 196 to 199: the first choice on a ballot that is still active. -/
def firstActiveChoice (active : List String) (ballot : Ballot) : Option String :=
  ballot.find? (fun book_id => decide (book_id ∈ active))

/-- The per-ballot body of the counting loop, lines 194 to 199. -/
def countStep (active : List String) (vote_counts : List (String × Nat)) (ballot : Ballot) :
    List (String × Nat) :=
  match firstActiveChoice active ballot with
  | some book_id => bump book_id vote_counts
  | none => vote_counts

/-- Lines 186 to 199: first-preference counts of the active books, starting
every active book at 0 and crediting each ballot once. -/
def countVotes (active : List String) (votes : List Ballot) : List (String × Nat) :=
  votes.foldl (countStep active) (active.map (fun book_id => (book_id, 0)))

/-- Lines 201 to 209: the first book, in dict order, whose count exceeds
half of the total number of ballots. The python float threshold
total_votes / 2 is the exact rational mkRat total_votes 2, and the lemma
mkRat_two_eq_div below identifies it with division in ℚ. -/
def findMajorityWinner (vote_counts : List (String × Nat)) (total_votes : Nat) : Option String :=
  (vote_counts.find? (fun p => decide (mkRat total_votes 2 < (p.2 : ℚ)))).map Prod.fst

/-- Line 212 python truthiness of the Optional[str] majority_winner:
None and the empty string are falsy. -/
def truthyId : Option String → Bool
  | none => false
  | some s => decide (s ≠ emptyId)

/-- Python min over the values of a nonempty dict (lines 233 and 269). -/
def minCount (counts : List (String × Nat)) : Nat :=
  match counts with
  | [] => 0
  | p :: rest => rest.foldl (fun m q => min m q.2) p.2

/-- Lines 244 to 248: the index of the first still-active choice of a
ballot; python encodes the missing case as -1, modelled here as none. -/
def firstActiveIdx (active : List String) (ballot : Ballot) : Option Nat :=
  ballot.findIdx? (fun book_id => decide (book_id ∈ active))

/-- Lines 242 to 265: credit one next-choice vote among the tied books for
one ballot. The two branches of the python conditional at line 254 have
literally identical bodies (lines 256 to 259 and 262 to 265). -/
def nextChoiceStep (active tied : List String) (ncc : List (String × Nat)) (ballot : Ballot) :
    List (String × Nat) :=
  match firstActiveIdx active ballot with
  | none => ncc
  | some first_choice_idx =>
    if tied.length = active.length ∨ ballot.getD first_choice_idx emptyId ∈ tied then
      match (ballot.drop (first_choice_idx + 1)).find? (fun book_id => decide (book_id ∈ tied)) with
      | some book_id => bump book_id ncc
      | none => ncc
    else
      match (ballot.drop (first_choice_idx + 1)).find? (fun book_id => decide (book_id ∈ tied)) with
      | some book_id => bump book_id ncc
      | none => ncc

/-- Lines 240 to 265: next-choice credits of the tied books over all ballots. -/
def nextChoiceCounts (active tied : List String) (votes : List Ballot) : List (String × Nat) :=
  votes.foldl (nextChoiceStep active tied) (tied.map (fun book_id => (book_id, 0)))

/-- Lines 267 to 271: shrink the tie set to the books with fewest next-choice
credits, but only when at least one credit is nonzero. -/
def resolveTieSet (active tied : List String) (votes : List Ballot) : List String :=
  if (nextChoiceCounts active tied votes).any (fun p => decide (0 < p.2)) then
    ((nextChoiceCounts active tied votes).filter
      (fun p => decide (p.2 = minCount (nextChoiceCounts active tied votes)))).map Prod.fst
  else tied

/-- Lines 232 to 271: the books with fewest votes, refined by the next-choice
tiebreaker when more than one is tied. -/
def eliminationTieSet (active : List String) (votes : List Ballot)
    (vote_counts : List (String × Nat)) : List String :=
  if 1 < ((vote_counts.filter (fun p => decide (p.2 = minCount vote_counts))).map Prod.fst).length
  then
    resolveTieSet active
      ((vote_counts.filter (fun p => decide (p.2 = minCount vote_counts))).map Prod.fst) votes
  else
    (vote_counts.filter (fun p => decide (p.2 = minCount vote_counts))).map Prod.fst

/-- Lines 185 to 300: the elimination while-loop. The fuel argument bounds the
number of iterations; the entry point runs the loop with fuel equal to the
size of the active set, and the fuel lemmas below show that this is always
enough, so the fueled function agrees with the python loop. Returns the
appended rounds and the final active set. -/
def rcLoop (votes : List Ballot) : Nat → List String → Nat → List Round × List String
  | 0, active, _ => ([], active)
  | fuel + 1, active, numPrev =>
    if active.length ≤ 1 then ([], active)
    else if truthyId (findMajorityWinner (countVotes active votes) votes.length) then
      ([⟨numPrev + 1, countVotes active votes, active.length, none,
          findMajorityWinner (countVotes active votes) votes.length, true⟩], active)
    else if (eliminationTieSet active votes (countVotes active votes)).length = active.length then
      ([⟨numPrev + 1, countVotes active votes, active.length,
          some ((eliminationTieSet active votes (countVotes active votes)).getD 0 emptyId),
          none, false⟩,
        ⟨numPrev + 2,
          [((eliminationTieSet active votes (countVotes active votes)).getD 1 emptyId,
            votes.length)], 1, none,
          some ((eliminationTieSet active votes (countVotes active votes)).getD 1 emptyId),
          false⟩],
       [])
    else
      ((⟨numPrev + 1, countVotes active votes, active.length,
          some ((eliminationTieSet active votes (countVotes active votes)).getD 0 emptyId),
          none, false⟩) ::
        (rcLoop votes fuel
          (active.erase ((eliminationTieSet active votes (countVotes active votes)).getD 0 emptyId))
          (numPrev + 1)).1,
       (rcLoop votes fuel
          (active.erase ((eliminationTieSet active votes (countVotes active votes)).getD 0 emptyId))
          (numPrev + 1)).2)

/-- Lines 172 to 175: every book id appearing on some ballot. The python set
is modelled by a list; only membership in it is ever used. -/
def allVotedBookIds (votes : List Ballot) : List String :=
  votes.foldl (fun acc ranked_choices => acc ++ ranked_choices) []

/-- Line 178: the initial active set, namely the nominated books that
received at least one vote, in nomination order and without duplicates. -/
def initialActive (votes : List Ballot) (books : List Book) : List String :=
  ((books.filter (fun book => decide (book.id ∈ allVotedBookIds votes))).map Book.id).dedup

/-- Lines 164 to 318: the engine. Guards for empty input, runs the
elimination loop, and appends the last-book-standing round when the loop
ends with exactly one active book. -/
def calculate_ranked_choice_winner (votes : List Ballot) (books : List Book) : List Round :=
  if votes.isEmpty ∨ books.isEmpty then []
  else if (initialActive votes books).isEmpty then []
  else if ¬ (rcLoop votes (initialActive votes books).length (initialActive votes books) 0).2.isEmpty
          ∧ (rcLoop votes (initialActive votes books).length (initialActive votes books) 0).2.length
            = 1 then
    (rcLoop votes (initialActive votes books).length (initialActive votes books) 0).1 ++
      [⟨(rcLoop votes (initialActive votes books).length (initialActive votes books) 0).1.length + 1,
        [((rcLoop votes (initialActive votes books).length (initialActive votes books) 0).2.headD
            emptyId, votes.length)], 1, none,
        some ((rcLoop votes (initialActive votes books).length (initialActive votes books) 0).2.headD
            emptyId), false⟩]
  else (rcLoop votes (initialActive votes books).length (initialActive votes books) 0).1

/-- A book with the given identity and blank display attributes, used to
build concrete inputs. -/
def mkBook (bid : String) : Book :=
  ⟨emptyId, emptyId, emptyId, emptyId, 0, bid⟩

/-- The total number of votes recorded in a counts dict. -/
def sumCounts (l : List (String × Nat)) : Nat := (l.map Prod.snd).sum

/-- Modelled from the spec, section 4.4: the uniform next-preference rule.
For one ballot, scan forward from the index of its first active choice for
the first ranked identity in the tie set and credit it one next-choice
vote, with no case split on whether the first active choice is itself
tied. This is the reference definition the tie-break code of the source is
compared against in the refinement statement for C2. -/
def nextCreditUniform (active tied : List String) (ncc : List (String × Nat)) (ballot : Ballot) :
    List (String × Nat) :=
  match firstActiveIdx active ballot with
  | none => ncc
  | some first_choice_idx =>
    match (ballot.drop (first_choice_idx + 1)).find? (fun book_id => decide (book_id ∈ tied)) with
    | some book_id => bump book_id ncc
    | none => ncc

/-! ### Keys of the association lists -/

theorem bump_keys (k : String) (l : List (String × Nat)) :
    (bump k l).map Prod.fst = l.map Prod.fst := by
  simp only [bump, List.map_map]
  exact List.map_congr_left fun p _ => by by_cases h : p.1 = k <;> simp [h]

theorem countStep_keys (active : List String) (counts : List (String × Nat)) (b : Ballot) :
    (countStep active counts b).map Prod.fst = counts.map Prod.fst := by
  unfold countStep
  cases firstActiveChoice active b <;> simp [bump_keys]

theorem foldl_countStep_keys (active : List String) :
    ∀ (votes : List Ballot) (init : List (String × Nat)),
      (votes.foldl (countStep active) init).map Prod.fst = init.map Prod.fst := by
  intro votes
  induction votes with
  | nil => intro init; rfl
  | cons b rest ih =>
    intro init
    rw [List.foldl_cons, ih, countStep_keys]

theorem countVotes_keys (active : List String) (votes : List Ballot) :
    (countVotes active votes).map Prod.fst = active := by
  unfold countVotes
  rw [foldl_countStep_keys]
  simp [Function.comp_def]

theorem nextChoiceStep_keys (active tied : List String) (ncc : List (String × Nat)) (b : Ballot) :
    (nextChoiceStep active tied ncc b).map Prod.fst = ncc.map Prod.fst := by
  unfold nextChoiceStep
  cases firstActiveIdx active b with
  | none => rfl
  | some i =>
    simp only
    split <;> split <;> simp [bump_keys]

theorem foldl_nextChoiceStep_keys (active tied : List String) :
    ∀ (votes : List Ballot) (init : List (String × Nat)),
      (votes.foldl (nextChoiceStep active tied) init).map Prod.fst = init.map Prod.fst := by
  intro votes
  induction votes with
  | nil => intro init; rfl
  | cons b rest ih =>
    intro init
    rw [List.foldl_cons, ih, nextChoiceStep_keys]

theorem nextChoiceCounts_keys (active tied : List String) (votes : List Ballot) :
    (nextChoiceCounts active tied votes).map Prod.fst = tied := by
  unfold nextChoiceCounts
  rw [foldl_nextChoiceStep_keys]
  simp [Function.comp_def]

/-! ### The minimum of the counts -/

theorem foldl_min_le_init (l : List (String × Nat)) (a : Nat) :
    l.foldl (fun m q => min m q.2) a ≤ a := by
  induction l generalizing a with
  | nil => exact le_refl a
  | cons q rest ih => exact le_trans (ih (min a q.2)) (min_le_left a q.2)

theorem foldl_min_le_mem {l : List (String × Nat)} {p : String × Nat} (hp : p ∈ l) (a : Nat) :
    l.foldl (fun m q => min m q.2) a ≤ p.2 := by
  induction l generalizing a with
  | nil => cases hp
  | cons q rest ih =>
    rcases List.mem_cons.mp hp with h | h
    · subst h
      exact le_trans (foldl_min_le_init rest (min a p.2)) (min_le_right a p.2)
    · exact ih h (min a q.2)

theorem foldl_min_eq (l : List (String × Nat)) (a : Nat) :
    l.foldl (fun m q => min m q.2) a = a ∨
      ∃ p ∈ l, l.foldl (fun m q => min m q.2) a = p.2 := by
  induction l generalizing a with
  | nil => exact Or.inl rfl
  | cons q rest ih =>
    rcases ih (min a q.2) with h | ⟨p, hp, h⟩
    · rcases min_choice a q.2 with hm | hm
      · left
        rw [List.foldl_cons, h, hm]
      · right
        exact ⟨q, List.mem_cons_self q rest, by rw [List.foldl_cons, h, hm]⟩
    · right
      exact ⟨p, List.mem_cons_of_mem q hp, by rw [List.foldl_cons]; exact h⟩

theorem minCount_le {counts : List (String × Nat)} {p : String × Nat} (hp : p ∈ counts) :
    minCount counts ≤ p.2 := by
  cases counts with
  | nil => cases hp
  | cons q rest =>
    rcases List.mem_cons.mp hp with h | h
    · subst h
      exact foldl_min_le_init rest p.2
    · exact foldl_min_le_mem h q.2

theorem minCount_mem {counts : List (String × Nat)} (h : counts ≠ []) :
    ∃ p ∈ counts, p.2 = minCount counts := by
  cases counts with
  | nil => exact absurd rfl h
  | cons q rest =>
    rcases foldl_min_eq rest q.2 with h1 | ⟨p, hp, h1⟩
    · exact ⟨q, List.mem_cons_self q rest, by simp [minCount, h1]⟩
    · exact ⟨p, List.mem_cons_of_mem q hp, by simp [minCount, h1]⟩

/-! ### The tie set -/

theorem mem_filterMin_sub {l : List (String × Nat)} {m : Nat} :
    ∀ x ∈ (l.filter (fun p => decide (p.2 = m))).map Prod.fst, x ∈ l.map Prod.fst := by
  intro x hx
  rcases List.mem_map.mp hx with ⟨p, hp, rfl⟩
  exact List.mem_map_of_mem Prod.fst (List.mem_of_mem_filter hp)

theorem filterMin_ne_nil {l : List (String × Nat)} (h : l ≠ []) :
    (l.filter (fun p => decide (p.2 = minCount l))).map Prod.fst ≠ [] := by
  rcases minCount_mem h with ⟨p, hp, hmin⟩
  exact List.ne_nil_of_mem
    (List.mem_map_of_mem Prod.fst (List.mem_filter.mpr ⟨hp, by simp [hmin]⟩))

theorem resolveTieSet_sub (active tied : List String) (votes : List Ballot) :
    ∀ x ∈ resolveTieSet active tied votes, x ∈ tied := by
  unfold resolveTieSet
  split
  · intro x hx
    have h2 := mem_filterMin_sub x hx
    rwa [nextChoiceCounts_keys] at h2
  · intro x hx
    exact hx

theorem resolveTieSet_ne_nil (active : List String) {tied : List String} (votes : List Ballot)
    (h : tied ≠ []) : resolveTieSet active tied votes ≠ [] := by
  unfold resolveTieSet
  split
  · apply filterMin_ne_nil
    intro hc
    apply h
    rw [← nextChoiceCounts_keys active tied votes, hc]
    rfl
  · exact h

theorem eliminationTieSet_sub {active : List String} (votes : List Ballot)
    {vote_counts : List (String × Nat)} (hkeys : vote_counts.map Prod.fst = active) :
    ∀ x ∈ eliminationTieSet active votes vote_counts, x ∈ active := by
  unfold eliminationTieSet
  split
  · intro x hx
    have h2 := resolveTieSet_sub active _ votes x hx
    have h3 := mem_filterMin_sub x h2
    rwa [hkeys] at h3
  · intro x hx
    have h3 := mem_filterMin_sub x hx
    rwa [hkeys] at h3

theorem eliminationTieSet_ne_nil {active : List String} (votes : List Ballot)
    {vote_counts : List (String × Nat)} (hkeys : vote_counts.map Prod.fst = active)
    (hne : active ≠ []) : eliminationTieSet active votes vote_counts ≠ [] := by
  have hcounts : vote_counts ≠ [] := by
    intro hc
    apply hne
    rw [← hkeys, hc]
    rfl
  unfold eliminationTieSet
  split
  · exact resolveTieSet_ne_nil active votes (filterMin_ne_nil hcounts)
  · exact filterMin_ne_nil hcounts

theorem getD_zero_mem {l : List String} (d : String) (h : l ≠ []) : l.getD 0 d ∈ l := by
  cases l with
  | nil => exact absurd rfl h
  | cons a t => exact List.mem_cons_self a t

theorem getD_one_mem {l : List String} (d : String) (h : 2 ≤ l.length) : l.getD 1 d ∈ l := by
  match l, h with
  | a :: b :: t, _ => exact List.mem_cons_of_mem a (List.mem_cons_self b t)

/-! ### Step equations of the elimination loop -/

theorem rcLoop_zero (votes : List Ballot) (active : List String) (numPrev : Nat) :
    rcLoop votes 0 active numPrev = ([], active) := rfl

theorem rcLoop_exit (votes : List Ballot) (fuel : Nat) (active : List String) (numPrev : Nat)
    (h : active.length ≤ 1) : rcLoop votes (fuel + 1) active numPrev = ([], active) := by
  simp only [rcLoop]
  rw [if_pos h]

theorem rcLoop_majority (votes : List Ballot) (fuel : Nat) (active : List String) (numPrev : Nat)
    (h1 : ¬ active.length ≤ 1)
    (h2 : truthyId (findMajorityWinner (countVotes active votes) votes.length) = true) :
    rcLoop votes (fuel + 1) active numPrev =
      ([⟨numPrev + 1, countVotes active votes, active.length, none,
          findMajorityWinner (countVotes active votes) votes.length, true⟩], active) := by
  simp only [rcLoop]
  rw [if_neg h1, if_pos h2]

theorem rcLoop_totalTie (votes : List Ballot) (fuel : Nat) (active : List String) (numPrev : Nat)
    (h1 : ¬ active.length ≤ 1)
    (h2 : truthyId (findMajorityWinner (countVotes active votes) votes.length) = false)
    (h3 : (eliminationTieSet active votes (countVotes active votes)).length = active.length) :
    rcLoop votes (fuel + 1) active numPrev =
      ([⟨numPrev + 1, countVotes active votes, active.length,
          some ((eliminationTieSet active votes (countVotes active votes)).getD 0 emptyId),
          none, false⟩,
        ⟨numPrev + 2,
          [((eliminationTieSet active votes (countVotes active votes)).getD 1 emptyId,
            votes.length)], 1, none,
          some ((eliminationTieSet active votes (countVotes active votes)).getD 1 emptyId),
          false⟩],
       []) := by
  simp only [rcLoop]
  rw [if_neg h1, if_neg (by simp [h2]), if_pos h3]

theorem rcLoop_elim (votes : List Ballot) (fuel : Nat) (active : List String) (numPrev : Nat)
    (h1 : ¬ active.length ≤ 1)
    (h2 : truthyId (findMajorityWinner (countVotes active votes) votes.length) = false)
    (h3 : ¬ (eliminationTieSet active votes (countVotes active votes)).length = active.length) :
    rcLoop votes (fuel + 1) active numPrev =
      ((⟨numPrev + 1, countVotes active votes, active.length,
          some ((eliminationTieSet active votes (countVotes active votes)).getD 0 emptyId),
          none, false⟩) ::
        (rcLoop votes fuel
          (active.erase ((eliminationTieSet active votes (countVotes active votes)).getD 0 emptyId))
          (numPrev + 1)).1,
       (rcLoop votes fuel
          (active.erase ((eliminationTieSet active votes (countVotes active votes)).getD 0 emptyId))
          (numPrev + 1)).2) := by
  simp only [rcLoop]
  rw [if_neg h1, if_neg (by simp [h2]), if_neg h3]

/-! ### The eliminated book is an active book, so the active set shrinks -/

theorem eliminated_mem_active (votes : List Ballot) {active : List String}
    (hne : active ≠ []) :
    (eliminationTieSet active votes (countVotes active votes)).getD 0 emptyId ∈ active := by
  have hkeys := countVotes_keys active votes
  exact eliminationTieSet_sub votes hkeys _
    (getD_zero_mem emptyId (eliminationTieSet_ne_nil votes hkeys hne))

theorem erase_eliminated_length (votes : List Ballot) {active : List String}
    (hne : active ≠ []) :
    (active.erase
      ((eliminationTieSet active votes (countVotes active votes)).getD 0 emptyId)).length =
      active.length - 1 :=
  List.length_erase_of_mem (eliminated_mem_active votes hne)

/-! ### Fuel does not matter once it reaches the size of the active set -/

theorem rcLoop_fuel_add (votes : List Ballot) :
    ∀ (fuel extra : Nat) (active : List String) (numPrev : Nat), active.length ≤ fuel →
      rcLoop votes (fuel + extra) active numPrev = rcLoop votes fuel active numPrev := by
  intro fuel
  induction fuel with
  | zero =>
    intro extra active numPrev hle
    have hnil : active = [] := List.length_eq_zero.mp (Nat.le_zero.mp hle)
    subst hnil
    cases extra with
    | zero => rfl
    | succ e =>
      rw [rcLoop_zero, Nat.zero_add, rcLoop_exit votes e [] numPrev (by simp)]
  | succ f ih =>
    intro extra active numPrev hle
    have hstep : f + 1 + extra = (f + extra) + 1 := by omega
    rw [hstep]
    by_cases h1 : active.length ≤ 1
    · rw [rcLoop_exit votes (f + extra) active numPrev h1, rcLoop_exit votes f active numPrev h1]
    · have hne : active ≠ [] := by
        intro hc
        subst hc
        simp at h1
      by_cases h2 :
          truthyId (findMajorityWinner (countVotes active votes) votes.length) = true
      · rw [rcLoop_majority votes (f + extra) active numPrev h1 h2,
          rcLoop_majority votes f active numPrev h1 h2]
      · have h2f : truthyId (findMajorityWinner (countVotes active votes) votes.length) = false :=
          Bool.eq_false_iff.mpr h2
        by_cases h3 :
            (eliminationTieSet active votes (countVotes active votes)).length = active.length
        · rw [rcLoop_totalTie votes (f + extra) active numPrev h1 h2f h3,
            rcLoop_totalTie votes f active numPrev h1 h2f h3]
        · have hlen := erase_eliminated_length votes hne
          have hrec :
              (active.erase
                ((eliminationTieSet active votes
                  (countVotes active votes)).getD 0 emptyId)).length ≤ f := by omega
          rw [rcLoop_elim votes (f + extra) active numPrev h1 h2f h3,
            rcLoop_elim votes f active numPrev h1 h2f h3, ih extra _ (numPrev + 1) hrec]

theorem rcLoop_fuel_ge (votes : List Ballot) (fuel : Nat) (active : List String) (numPrev : Nat)
    (h : active.length ≤ fuel) :
    rcLoop votes fuel active numPrev = rcLoop votes active.length active numPrev := by
  have h1 : fuel = active.length + (fuel - active.length) := by omega
  rw [h1, rcLoop_fuel_add votes active.length (fuel - active.length) active numPrev (le_refl _)]

/-! ### The loop produces at most one round per active book -/

theorem rcLoop_rounds_le (votes : List Ballot) :
    ∀ (fuel : Nat) (active : List String) (numPrev : Nat),
      (rcLoop votes fuel active numPrev).1.length ≤ active.length := by
  intro fuel
  induction fuel with
  | zero =>
    intro active numPrev
    rw [rcLoop_zero]
    exact Nat.zero_le _
  | succ f ih =>
    intro active numPrev
    by_cases h1 : active.length ≤ 1
    · rw [rcLoop_exit votes f active numPrev h1]
      exact Nat.zero_le _
    · have hne : active ≠ [] := by
        intro hc
        subst hc
        simp at h1
      by_cases h2 :
          truthyId (findMajorityWinner (countVotes active votes) votes.length) = true
      · rw [rcLoop_majority votes f active numPrev h1 h2]
        simp only [List.length_singleton]
        omega
      · have h2f : truthyId (findMajorityWinner (countVotes active votes) votes.length) = false :=
          Bool.eq_false_iff.mpr h2
        by_cases h3 :
            (eliminationTieSet active votes (countVotes active votes)).length = active.length
        · rw [rcLoop_totalTie votes f active numPrev h1 h2f h3]
          simp only [List.length_cons, List.length_nil]
          omega
        · have hlen := erase_eliminated_length votes hne
          have hrec := ih
            (active.erase
              ((eliminationTieSet active votes (countVotes active votes)).getD 0 emptyId))
            (numPrev + 1)
          rw [rcLoop_elim votes f active numPrev h1 h2f h3]
          simp only [List.length_cons]
          omega

/-! ### Sums of vote counts -/

theorem bump_not_mem {k : String} {l : List (String × Nat)} (h : k ∉ l.map Prod.fst) :
    bump k l = l := by
  induction l with
  | nil => rfl
  | cons p rest ih =>
    simp only [List.map_cons, List.mem_cons, not_or] at h
    show (if p.1 = k then (p.1, p.2 + 1) else p) :: bump k rest = p :: rest
    rw [if_neg (fun hc => h.1 hc.symm), ih h.2]

theorem sumCounts_bump {k : String} {l : List (String × Nat)}
    (hnd : (l.map Prod.fst).Nodup) (h : k ∈ l.map Prod.fst) :
    sumCounts (bump k l) = sumCounts l + 1 := by
  induction l with
  | nil => cases h
  | cons p rest ih =>
    simp only [List.map_cons, List.nodup_cons] at hnd
    show sumCounts ((if p.1 = k then (p.1, p.2 + 1) else p) :: bump k rest) =
      sumCounts (p :: rest) + 1
    rcases List.mem_cons.mp h with hk | hk
    · have hknr : k ∉ rest.map Prod.fst := hk ▸ hnd.1
      rw [if_pos hk.symm, bump_not_mem hknr]
      simp only [sumCounts, List.map_cons, List.sum_cons]
      omega
    · have hne : ¬ p.1 = k := fun hc => hnd.1 (hc ▸ hk)
      have h4 := ih hnd.2 hk
      rw [if_neg hne]
      simp only [sumCounts, List.map_cons, List.sum_cons] at h4 ⊢
      omega

theorem sumCounts_countStep {active : List String} (hnd : active.Nodup)
    {counts : List (String × Nat)} (hkeys : counts.map Prod.fst = active) (b : Ballot) :
    sumCounts (countStep active counts b) =
      sumCounts counts + (if (firstActiveChoice active b).isSome then 1 else 0) := by
  unfold countStep
  cases hfc : firstActiveChoice active b with
  | none => simp
  | some book_id =>
    have hmem : book_id ∈ active := by
      have h1 := List.find?_some hfc
      simpa using h1
    rw [sumCounts_bump (hkeys ▸ hnd) (by rw [hkeys]; exact hmem)]
    simp

theorem sumCounts_foldl_countStep {active : List String} (hnd : active.Nodup) :
    ∀ (votes : List Ballot) (init : List (String × Nat)), init.map Prod.fst = active →
      sumCounts (votes.foldl (countStep active) init) =
        sumCounts init + votes.countP (fun b => (firstActiveChoice active b).isSome) := by
  intro votes
  induction votes with
  | nil =>
    intro init _
    simp
  | cons b rest ih =>
    intro init hkeys
    rw [List.foldl_cons, ih (countStep active init b) (by rw [countStep_keys, hkeys]),
      sumCounts_countStep hnd hkeys b, List.countP_cons]
    by_cases hb : (firstActiveChoice active b).isSome <;> (simp [hb]; try omega)

theorem sumCounts_init_zero (active : List String) :
    sumCounts (active.map (fun book_id => (book_id, 0))) = 0 := by
  induction active with
  | nil => rfl
  | cons a t ih =>
    simp only [sumCounts, List.map_cons, List.map_map, List.sum_cons] at ih ⊢
    omega

theorem sumCounts_countVotes {active : List String} (hnd : active.Nodup) (votes : List Ballot) :
    sumCounts (countVotes active votes) =
      votes.countP (fun b => (firstActiveChoice active b).isSome) := by
  unfold countVotes
  rw [sumCounts_foldl_countStep hnd votes _ (by simp [Function.comp_def]),
    sumCounts_init_zero]
  exact Nat.zero_add _

theorem firstActiveChoice_isSome {active : List String} {b : Ballot} :
    (firstActiveChoice active b).isSome = true ↔ ∃ bid ∈ b, bid ∈ active := by
  unfold firstActiveChoice
  rw [List.find?_isSome]
  simp

theorem snd_le_sumCounts {l : List (String × Nat)} {p : String × Nat} (hp : p ∈ l) :
    p.2 ≤ sumCounts l := by
  induction l with
  | nil => cases hp
  | cons q rest ih =>
    rcases List.mem_cons.mp hp with h | h
    · subst h
      simp only [sumCounts, List.map_cons, List.sum_cons]
      omega
    · have h2 := ih h
      simp only [sumCounts, List.map_cons, List.sum_cons] at h2 ⊢
      omega

theorem pair_le_sumCounts {l : List (String × Nat)} (hnd : (l.map Prod.fst).Nodup)
    {p q : String × Nat} (hp : p ∈ l) (hq : q ∈ l) (hne : p.1 ≠ q.1) :
    p.2 + q.2 ≤ sumCounts l := by
  induction l with
  | nil => cases hp
  | cons a rest ih =>
    simp only [List.map_cons, List.nodup_cons] at hnd
    rcases List.mem_cons.mp hp with h1 | h1 <;> rcases List.mem_cons.mp hq with h2 | h2
    · exact absurd (h1 ▸ h2 ▸ rfl) hne
    · subst h1
      have h3 := snd_le_sumCounts h2
      simp only [sumCounts, List.map_cons, List.sum_cons] at h3 ⊢
      omega
    · subst h2
      have h3 := snd_le_sumCounts h1
      simp only [sumCounts, List.map_cons, List.sum_cons] at h3 ⊢
      omega
    · have h3 := ih hnd.2 h1 h2
      simp only [sumCounts, List.map_cons, List.sum_cons] at h3 ⊢
      omega

theorem entry_eq_of_nodup_keys {l : List (String × Nat)} (hnd : (l.map Prod.fst).Nodup)
    {p q : String × Nat} (hp : p ∈ l) (hq : q ∈ l) (hfst : p.1 = q.1) : p = q := by
  induction l with
  | nil => cases hp
  | cons a rest ih =>
    simp only [List.map_cons, List.nodup_cons] at hnd
    rcases List.mem_cons.mp hp with h1 | h1 <;> rcases List.mem_cons.mp hq with h2 | h2
    · rw [h1, h2]
    · subst h1
      exact absurd (by rw [hfst]; exact List.mem_map_of_mem Prod.fst h2) hnd.1
    · subst h2
      exact absurd (by rw [← hfst]; exact List.mem_map_of_mem Prod.fst h1) hnd.1
    · exact ih hnd.2 h1 h2

/-! ### The majority threshold as a rational number -/

theorem mkRat_two_eq_div (n : Nat) : mkRat (n : Int) 2 = (n : ℚ) / 2 := by
  rw [Rat.mkRat_eq_div]
  norm_num

theorem majority_iff_nat (T c : Nat) : (mkRat (T : Int) 2 < (c : ℚ)) ↔ T < 2 * c := by
  rw [mkRat_two_eq_div, div_lt_iff₀ (by norm_num : (0 : ℚ) < 2), mul_comm]
  constructor <;> intro h <;> exact_mod_cast h

theorem findMajorityWinner_isSome {counts : List (String × Nat)} {T : Nat} :
    (findMajorityWinner counts T).isSome = true ↔ ∃ p ∈ counts, T < 2 * p.2 := by
  unfold findMajorityWinner
  have hiso :
      (Option.map Prod.fst
        (counts.find? (fun (p : String × Nat) => decide (mkRat (T : Int) 2 < (p.2 : ℚ))))).isSome =
      (counts.find? (fun (p : String × Nat) => decide (mkRat (T : Int) 2 < (p.2 : ℚ)))).isSome := by
    cases counts.find? (fun (p : String × Nat) => decide (mkRat (T : Int) 2 < (p.2 : ℚ))) <;> rfl
  rw [hiso, List.find?_isSome]
  constructor
  · rintro ⟨p, hp, hdec⟩
    exact ⟨p, hp, (majority_iff_nat T p.2).mp (of_decide_eq_true hdec)⟩
  · rintro ⟨p, hp, h⟩
    exact ⟨p, hp, decide_eq_true ((majority_iff_nat T p.2).mpr h)⟩

theorem findMajorityWinner_some {counts : List (String × Nat)} {T : Nat} {w : String}
    (h : findMajorityWinner counts T = some w) :
    ∃ c, (w, c) ∈ counts ∧ T < 2 * c := by
  unfold findMajorityWinner at h
  cases hf : counts.find? (fun (p : String × Nat) => decide (mkRat (T : Int) 2 < (p.2 : ℚ))) with
  | none =>
    rw [hf] at h
    cases h
  | some p =>
    rw [hf] at h
    simp only [Option.map_some'] at h
    have h1 := List.find?_some hf
    have h2 := List.mem_of_find?_eq_some hf
    have hw := Option.some.inj h
    subst hw
    exact ⟨p.2, by simpa using h2, (majority_iff_nat T p.2).mp (of_decide_eq_true h1)⟩

theorem findMajorityWinner_none {counts : List (String × Nat)} {T : Nat}
    (h : findMajorityWinner counts T = none) : ∀ p ∈ counts, ¬ T < 2 * p.2 := by
  intro p hp hlt
  have h2 : (findMajorityWinner counts T).isSome = true :=
    findMajorityWinner_isSome.mpr ⟨p, hp, hlt⟩
  rw [h] at h2
  cases h2

theorem findMajorityWinner_mem_keys {counts : List (String × Nat)} {T : Nat} {w : String}
    (h : findMajorityWinner counts T = some w) : w ∈ counts.map Prod.fst := by
  unfold findMajorityWinner at h
  cases hf : counts.find? (fun (p : String × Nat) => decide (mkRat (T : Int) 2 < (p.2 : ℚ))) with
  | none =>
    rw [hf] at h
    cases h
  | some p =>
    rw [hf] at h
    simp only [Option.map_some'] at h
    have hw := Option.some.inj h
    subst hw
    exact List.mem_map_of_mem Prod.fst (List.mem_of_find?_eq_some hf)

/-! ### Structural invariants of the loop output -/

theorem isSome_of_truthy {o : Option String} (h : truthyId o = true) : o.isSome = true := by
  cases o with
  | none => exact absurd h (by simp [truthyId])
  | some s => rfl

theorem rcLoop_shape (votes : List Ballot) :
    ∀ (fuel : Nat) (active : List String) (numPrev : Nat),
      1 ≤ active.length → active.length ≤ fuel → active.Nodup →
      (((rcLoop votes fuel active numPrev).2.length = 1 →
          ∀ r ∈ (rcLoop votes fuel active numPrev).1, r.winner = none) ∧
        ((rcLoop votes fuel active numPrev).2.length ≠ 1 →
          ∃ rs₀ r₀, (rcLoop votes fuel active numPrev).1 = rs₀ ++ [r₀] ∧
            r₀.winner.isSome = true ∧ ∀ r ∈ rs₀, r.winner = none)) ∧
      (List.Chain' (fun a b => b.active_books ≤ a.active_books)
          (rcLoop votes fuel active numPrev).1 ∧
        (∀ r ∈ (rcLoop votes fuel active numPrev).1, 1 ≤ r.active_books) ∧
        (∀ r, (rcLoop votes fuel active numPrev).1.head? = some r →
          r.active_books ≤ active.length)) ∧
      (∀ r ∈ (rcLoop votes fuel active numPrev).1, r.winner = none →
        ∃ act, act.Nodup ∧ r.vote_counts = countVotes act votes) := by
  intro fuel
  induction fuel with
  | zero =>
    intro active numPrev h1 h2 hnd
    omega
  | succ f ih =>
    intro active numPrev h1 h2 hnd
    by_cases hx : active.length ≤ 1
    · rw [rcLoop_exit votes f active numPrev hx]
      refine ⟨⟨fun _ r hr => absurd hr (by simp),
        fun hne2 => absurd (show active.length = 1 by omega) hne2⟩,
        ⟨List.chain'_nil, fun r hr => absurd hr (by simp), fun r hr => by simp at hr⟩,
        fun r hr => absurd hr (by simp)⟩
    · have hne : active ≠ [] := by
        intro hc
        subst hc
        simp at hx
      by_cases hmaj :
          truthyId (findMajorityWinner (countVotes active votes) votes.length) = true
      · rw [rcLoop_majority votes f active numPrev hx hmaj]
        refine ⟨⟨fun hfin => absurd (show active.length = 1 from hfin)
            (by omega), fun _ => ?_⟩,
          ⟨List.chain'_singleton _, ?_, ?_⟩, ?_⟩
        · exact ⟨[], ⟨numPrev + 1, countVotes active votes, active.length, none,
            findMajorityWinner (countVotes active votes) votes.length, true⟩,
            rfl, isSome_of_truthy hmaj, fun r hr => absurd hr (by simp)⟩
        · intro r hr
          simp only [List.mem_singleton] at hr
          subst hr
          simp only
          omega
        · intro r hr
          simp only [List.head?_cons, Option.some.injEq] at hr
          subst hr
          simp only
          exact le_refl _
        · intro r hr hw
          simp only [List.mem_singleton] at hr
          subst hr
          simp only at hw
          rw [hw] at hmaj
          exact absurd hmaj (by simp [truthyId])
      · have hmajf : truthyId (findMajorityWinner (countVotes active votes) votes.length)
            = false := Bool.eq_false_iff.mpr hmaj
        by_cases htie :
            (eliminationTieSet active votes (countVotes active votes)).length = active.length
        · rw [rcLoop_totalTie votes f active numPrev hx hmajf htie]
          refine ⟨⟨fun hfin => absurd (show (0 : Nat) = 1 from hfin) (by omega),
            fun _ => ?_⟩, ⟨?_, ?_, ?_⟩, ?_⟩
          · refine ⟨[⟨numPrev + 1, countVotes active votes, active.length,
              some ((eliminationTieSet active votes (countVotes active votes)).getD 0 emptyId),
              none, false⟩],
              ⟨numPrev + 2,
                [((eliminationTieSet active votes (countVotes active votes)).getD 1 emptyId,
                  votes.length)], 1, none,
                some ((eliminationTieSet active votes (countVotes active votes)).getD 1 emptyId),
                false⟩, rfl, rfl, ?_⟩
            intro r hr
            simp only [List.mem_singleton] at hr
            subst hr
            rfl
          · refine List.chain'_cons.mpr ⟨?_, List.chain'_singleton _⟩
            simp only
            omega
          · intro r hr
            simp only [List.mem_cons, List.mem_singleton, List.not_mem_nil, or_false] at hr
            rcases hr with hr | hr <;> subst hr <;> simp only <;> omega
          · intro r hr
            simp only [List.head?_cons, Option.some.injEq] at hr
            subst hr
            simp only
            exact le_refl _
          · intro r hr hw
            simp only [List.mem_cons, List.mem_singleton, List.not_mem_nil, or_false] at hr
            rcases hr with hr | hr <;> subst hr
            · exact ⟨active, hnd, rfl⟩
            · simp only at hw
              cases hw
        · have hlen := erase_eliminated_length votes hne
          have h1r : 1 ≤ (active.erase
              ((eliminationTieSet active votes
                (countVotes active votes)).getD 0 emptyId)).length := by omega
          have h2r : (active.erase
              ((eliminationTieSet active votes
                (countVotes active votes)).getD 0 emptyId)).length ≤ f := by omega
          have hndr : (active.erase
              ((eliminationTieSet active votes
                (countVotes active votes)).getD 0 emptyId)).Nodup :=
            List.Nodup.erase _ hnd
          have IH := ih (active.erase
              ((eliminationTieSet active votes (countVotes active votes)).getD 0 emptyId))
            (numPrev + 1) h1r h2r hndr
          rw [rcLoop_elim votes f active numPrev hx hmajf htie]
          obtain ⟨⟨ihA1, ihA2⟩, ⟨ihB1, ihB2, ihB3⟩, ihC⟩ := IH
          refine ⟨⟨?_, ?_⟩, ⟨?_, ?_, ?_⟩, ?_⟩
          · intro hfin r hr
            simp only [List.mem_cons] at hr
            rcases hr with hr | hr
            · subst hr
              rfl
            · exact ihA1 hfin r hr
          · intro hfin
            obtain ⟨rs₀, r₀, hdec, hsome, hnone⟩ := ihA2 hfin
            refine ⟨⟨numPrev + 1, countVotes active votes, active.length,
              some ((eliminationTieSet active votes (countVotes active votes)).getD 0 emptyId),
              none, false⟩ :: rs₀, r₀, by simp only; rw [hdec]; rfl, hsome, ?_⟩
            intro r hr
            simp only [List.mem_cons] at hr
            rcases hr with hr | hr
            · subst hr
              rfl
            · exact hnone r hr
          · refine List.chain'_cons'.mpr ⟨?_, ihB1⟩
            intro y hy
            have hy2 := ihB3 y hy
            simp only
            omega
          · intro r hr
            simp only [List.mem_cons] at hr
            rcases hr with hr | hr
            · subst hr
              simp only
              omega
            · exact ihB2 r hr
          · intro r hr
            simp only [List.head?_cons, Option.some.injEq] at hr
            subst hr
            simp only
            exact le_refl _
          · intro r hr hw
            simp only [List.mem_cons] at hr
            rcases hr with hr | hr
            · subst hr
              exact ⟨active, hnd, rfl⟩
            · exact ihC r hr hw

/-! ### The initial active set -/

theorem mem_foldl_append (votes : List Ballot) :
    ∀ (init : List String) (x : String),
      (x ∈ votes.foldl (fun acc ranked_choices => acc ++ ranked_choices) init ↔
        x ∈ init ∨ ∃ b ∈ votes, x ∈ b) := by
  induction votes with
  | nil =>
    intro init x
    simp
  | cons b rest ih =>
    intro init x
    rw [List.foldl_cons, ih, List.exists_mem_cons_iff]
    simp only [List.mem_append]
    tauto

theorem mem_allVotedBookIds {votes : List Ballot} {x : String} :
    x ∈ allVotedBookIds votes ↔ ∃ b ∈ votes, x ∈ b := by
  unfold allVotedBookIds
  rw [mem_foldl_append]
  simp

theorem initialActive_nodup (votes : List Ballot) (books : List Book) :
    (initialActive votes books).Nodup :=
  List.nodup_dedup _

theorem initialActive_eq_nil_iff {votes : List Ballot} {books : List Book} :
    initialActive votes books = [] ↔ ∀ bk ∈ books, ∀ b ∈ votes, bk.id ∉ b := by
  unfold initialActive
  rw [List.dedup_eq_nil, List.map_eq_nil_iff, List.filter_eq_nil_iff]
  simp only [decide_eq_true_eq, mem_allVotedBookIds]
  constructor
  · intro h bk hbk b hb hmem
    exact h bk hbk ⟨b, hb, hmem⟩
  · rintro h bk hbk ⟨b, hb, hmem⟩
    exact h bk hbk b hb hmem

/-! ### Unfolding the entry point -/

theorem calc_empty_guard {votes : List Ballot} {books : List Book}
    (h : votes.isEmpty ∨ books.isEmpty) :
    calculate_ranked_choice_winner votes books = [] := by
  unfold calculate_ranked_choice_winner
  rw [if_pos h]

theorem calc_no_active {votes : List Ballot} {books : List Book}
    (h1 : ¬ (votes.isEmpty ∨ books.isEmpty))
    (h2 : (initialActive votes books).isEmpty) :
    calculate_ranked_choice_winner votes books = [] := by
  unfold calculate_ranked_choice_winner
  rw [if_neg h1, if_pos h2]

theorem calc_final_round {votes : List Ballot} {books : List Book}
    (h1 : ¬ (votes.isEmpty ∨ books.isEmpty))
    (h2 : ¬ (initialActive votes books).isEmpty)
    (h3 : (rcLoop votes (initialActive votes books).length
      (initialActive votes books) 0).2.length = 1) :
    calculate_ranked_choice_winner votes books =
      (rcLoop votes (initialActive votes books).length (initialActive votes books) 0).1 ++
        [⟨(rcLoop votes (initialActive votes books).length
            (initialActive votes books) 0).1.length + 1,
          [((rcLoop votes (initialActive votes books).length
              (initialActive votes books) 0).2.headD emptyId, votes.length)], 1, none,
          some ((rcLoop votes (initialActive votes books).length
              (initialActive votes books) 0).2.headD emptyId), false⟩] := by
  unfold calculate_ranked_choice_winner
  rw [if_neg h1, if_neg h2, if_pos]
  constructor
  · intro hc
    rw [List.isEmpty_iff] at hc
    rw [hc] at h3
    cases h3
  · exact h3

theorem calc_no_final {votes : List Ballot} {books : List Book}
    (h1 : ¬ (votes.isEmpty ∨ books.isEmpty))
    (h2 : ¬ (initialActive votes books).isEmpty)
    (h3 : (rcLoop votes (initialActive votes books).length
      (initialActive votes books) 0).2.length ≠ 1) :
    calculate_ranked_choice_winner votes books =
      (rcLoop votes (initialActive votes books).length (initialActive votes books) 0).1 := by
  unfold calculate_ranked_choice_winner
  rw [if_neg h1, if_neg h2, if_neg]
  intro hc
  exact h3 hc.2

theorem calc_cases {votes : List Ballot} {books : List Book} {r : Round}
    (hr : r ∈ calculate_ranked_choice_winner votes books) :
    ¬ (votes.isEmpty ∨ books.isEmpty) ∧ ¬ (initialActive votes books).isEmpty ∧
    (r ∈ (rcLoop votes (initialActive votes books).length (initialActive votes books) 0).1 ∨
      r.winner = some ((rcLoop votes (initialActive votes books).length
        (initialActive votes books) 0).2.headD emptyId)) := by
  by_cases h1 : votes.isEmpty ∨ books.isEmpty
  · rw [calc_empty_guard h1] at hr
    cases hr
  · by_cases h2 : (initialActive votes books).isEmpty
    · rw [calc_no_active h1 h2] at hr
      cases hr
    · refine ⟨h1, h2, ?_⟩
      by_cases h3 : (rcLoop votes (initialActive votes books).length
          (initialActive votes books) 0).2.length = 1
      · rw [calc_final_round h1 h2 h3] at hr
        rcases List.mem_append.mp hr with hin | hin
        · exact Or.inl hin
        · simp only [List.mem_singleton] at hin
          subst hin
          exact Or.inr rfl
      · rw [calc_no_final h1 h2 h3] at hr
        exact Or.inl hr

/-! ### Claim theorems -/

theorem filter_map_book_id (books : List Book) (p : String → Bool) :
    (books.filter (fun bk => p bk.id)).map Book.id = (books.map Book.id).filter p := by
  induction books with
  | nil => rfl
  | cons bk rest ih =>
    by_cases h : p bk.id = true <;>
      simp [List.filter_cons, h, ih]

/-- C2: the next-preference credit of a ballot is computed by the same
forward scan whether or not the first active choice of the ballot is a
tied candidate (the branch condition of line 254 is irrelevant because the
two branch bodies are identical); and the tie set is replaced by its
members with the fewest next-choice credits exactly when at least one
credit is nonzero, and is left unchanged otherwise. -/
theorem spec_C2 (votes : List Ballot) (active tied : List String) :
    (∀ (ncc : List (String × Nat)) (ballot : Ballot),
      nextChoiceStep active tied ncc ballot = nextCreditUniform active tied ncc ballot) ∧
    ((∀ p ∈ nextChoiceCounts active tied votes, p.2 = 0) →
      resolveTieSet active tied votes = tied) ∧
    ((∃ p ∈ nextChoiceCounts active tied votes, 0 < p.2) →
      resolveTieSet active tied votes =
        ((nextChoiceCounts active tied votes).filter
          (fun p => decide (p.2 = minCount (nextChoiceCounts active tied votes)))).map Prod.fst ∧
      ∀ p ∈ nextChoiceCounts active tied votes,
        minCount (nextChoiceCounts active tied votes) ≤ p.2) := by
  refine ⟨?_, ?_, ?_⟩
  · intro ncc ballot
    unfold nextChoiceStep nextCreditUniform
    cases firstActiveIdx active ballot with
    | none => rfl
    | some i =>
      simp only
      split <;> rfl
  · intro h
    unfold resolveTieSet
    rw [if_neg]
    intro hc
    rw [List.any_eq_true] at hc
    obtain ⟨p, hp, hdec⟩ := hc
    rw [decide_eq_true_eq] at hdec
    rw [h p hp] at hdec
    exact absurd hdec (by omega)
  · rintro ⟨p, hp, hpos⟩
    have hcond : (nextChoiceCounts active tied votes).any (fun p => decide (0 < p.2)) = true :=
      List.any_eq_true.mpr ⟨p, hp, by simpa using hpos⟩
    unfold resolveTieSet
    rw [if_pos hcond]
    exact ⟨rfl, fun q hq => minCount_le hq⟩

/-- C2 witness: a concrete three-candidate instance where a ballot whose
first active choice is untied still credits a later tied candidate, and
the tie set shrinks to the candidates with fewest credits. -/
theorem spec_C2_witness :
    resolveTieSet ["a", "b", "c"] ["b", "c"] [["a", "b"]] =
      ((nextChoiceCounts ["a", "b", "c"] ["b", "c"] [["a", "b"]]).filter
        (fun p => decide
          (p.2 = minCount (nextChoiceCounts ["a", "b", "c"] ["b", "c"] [["a", "b"]])))).map
        Prod.fst :=
  ((spec_C2 [["a", "b"]] ["a", "b", "c"] ["b", "c"]).2.2 ⟨(("b"), 1), by decide, by decide⟩).1

/-- C3: when, after tie-breaking, the tie set still has the same size as
the entire active set, the loop appends exactly two rounds: an elimination
round removing the first tied book, and a synthetic terminal round
declaring the second tied book the winner with all ballots counted for it
and majority_win absent (false); the returned active set is empty, so the
loop stops and the entry point appends nothing further. -/
theorem spec_C3 (votes : List Ballot) (fuel numPrev : Nat) (active : List String)
    (h1 : ¬ active.length ≤ 1)
    (h2 : truthyId (findMajorityWinner (countVotes active votes) votes.length) = false)
    (h3 : (eliminationTieSet active votes (countVotes active votes)).length = active.length) :
    rcLoop votes (fuel + 1) active numPrev =
      ([⟨numPrev + 1, countVotes active votes, active.length,
          some ((eliminationTieSet active votes (countVotes active votes)).getD 0 emptyId),
          none, false⟩,
        ⟨numPrev + 2,
          [((eliminationTieSet active votes (countVotes active votes)).getD 1 emptyId,
            votes.length)], 1, none,
          some ((eliminationTieSet active votes (countVotes active votes)).getD 1 emptyId),
          false⟩],
       []) :=
  rcLoop_totalTie votes fuel active numPrev h1 h2 h3

/-- C3 witness: two candidates, one ballot each way; the tie survives the
next-preference step, the first candidate in deterministic order is
eliminated and the second is declared winner with both ballots. -/
theorem spec_C3_witness :
    rcLoop [["a", "b"], ["b", "a"]] 2 ["a", "b"] 0 =
      ([⟨1, [(("a"), 1), (("b"), 1)], 2, some ("a"), none, false⟩,
        ⟨2, [(("b"), 2)], 1, none, some ("b"), false⟩], []) :=
  (spec_C3 [["a", "b"], ["b", "a"]] 1 0 ["a", "b"] (by decide) (by decide)
    (by decide)).trans (by decide)

/-- C8: tabulation is a pure function of its inputs; moreover the output
depends only on the data the engine reads, namely the ballots and the book
identities, so two snapshots with identical ballots and identical id
sequences give identical round sequences (and in particular two calls on
the same snapshot do). -/
theorem spec_C8 (votes : List Ballot) (books1 books2 : List Book)
    (h : books1.map Book.id = books2.map Book.id) :
    calculate_ranked_choice_winner votes books1 = calculate_ranked_choice_winner votes books2 := by
  have h2 : (books1 = []) ↔ (books2 = []) := by
    constructor <;> intro hh
    · have h3 : books2.map Book.id = [] := by
        rw [← h, hh]
        rfl
      exact List.map_eq_nil_iff.mp h3
    · have h3 : books1.map Book.id = [] := by
        rw [h, hh]
        rfl
      exact List.map_eq_nil_iff.mp h3
  have hie : books1.isEmpty = books2.isEmpty := by
    by_cases hb : books1 = []
    · rw [hb, h2.mp hb]
    · have hb2 : books2 ≠ [] := fun hc => hb (h2.mpr hc)
      rcases books1 with _ | _ <;> rcases books2 with _ | _ <;> simp_all
  have hact : initialActive votes books1 = initialActive votes books2 := by
    unfold initialActive
    rw [filter_map_book_id books1 (fun x => decide (x ∈ allVotedBookIds votes)),
      filter_map_book_id books2 (fun x => decide (x ∈ allVotedBookIds votes)), h]
  unfold calculate_ranked_choice_winner
  rw [hact, hie]

/-- C8 witness: two book lists with the same identities but different
display attributes produce the same rounds. -/
theorem spec_C8_witness :
    calculate_ranked_choice_winner [["a"], ["a"], ["b"]]
        [⟨("t1"), ("u1"), ("d1"), ("g1"), 100, ("a")⟩,
         ⟨("t2"), ("u2"), ("d2"), ("g2"), 200, ("b")⟩] =
      calculate_ranked_choice_winner [["a"], ["a"], ["b"]]
        [⟨("x1"), ("y1"), ("e1"), ("h1"), 300, ("a")⟩,
         ⟨("x2"), ("y2"), ("e2"), ("h2"), 400, ("b")⟩] :=
  spec_C8 [["a"], ["a"], ["b"]] _ _ (by decide)

/-- C9: in a single count over a duplicate-free active set, any two
entries whose counts strictly exceed half the ballots are the same entry,
and the majority scan returns exactly that book, so the guard never has to
choose among several majority candidates. -/
theorem spec_C9 (votes : List Ballot) (active : List String) (hnd : active.Nodup)
    (p q : String × Nat) (hp : p ∈ countVotes active votes) (hq : q ∈ countVotes active votes)
    (hpm : votes.length < 2 * p.2) (hqm : votes.length < 2 * q.2) :
    p = q ∧ findMajorityWinner (countVotes active votes) votes.length = some p.1 := by
  have hkeysnd : ((countVotes active votes).map Prod.fst).Nodup := by
    rw [countVotes_keys]
    exact hnd
  have hsum : sumCounts (countVotes active votes) ≤ votes.length := by
    rw [sumCounts_countVotes hnd]
    exact List.countP_le_length _
  have huniq : ∀ p' q' : String × Nat, p' ∈ countVotes active votes →
      q' ∈ countVotes active votes →
      votes.length < 2 * p'.2 → votes.length < 2 * q'.2 → p' = q' := by
    intro p' q' hp' hq' hpm' hqm'
    by_cases hfst : p'.1 = q'.1
    · exact entry_eq_of_nodup_keys hkeysnd hp' hq' hfst
    · have hpair := pair_le_sumCounts hkeysnd hp' hq' hfst
      omega
  refine ⟨huniq p q hp hq hpm hqm, ?_⟩
  have hsome : (findMajorityWinner (countVotes active votes) votes.length).isSome = true :=
    findMajorityWinner_isSome.mpr ⟨p, hp, hpm⟩
  cases hf : findMajorityWinner (countVotes active votes) votes.length with
  | none =>
    rw [hf] at hsome
    cases hsome
  | some w =>
    obtain ⟨c, hwc, hcm⟩ := findMajorityWinner_some hf
    have hpe := huniq p (w, c) hp hwc hpm hcm
    rw [hpe]

/-- C9 witness: with three ballots over two candidates the majority entry
is unique and the scan returns it. -/
theorem spec_C9_witness :
    ((("a"), 2) : String × Nat) = (("a"), 2) ∧
      findMajorityWinner (countVotes ["a", "b"] [["a"], ["a"], ["b"]]) 3 = some ("a") :=
  spec_C9 [["a"], ["a"], ["b"]] ["a", "b"] (by decide) (("a"), 2) (("a"), 2)
    (by decide) (by decide) (by decide) (by decide)

/-- C10: the elimination loop terminates; fuel equal to the size of the
active set is always sufficient (the loop runs at most that many
iterations, each removing one book or stopping), and the loop appends at
most one round per active book. -/
theorem spec_C10 (votes : List Ballot) (active : List String) (numPrev fuel : Nat)
    (h : active.length ≤ fuel) :
    rcLoop votes fuel active numPrev = rcLoop votes active.length active numPrev ∧
    (rcLoop votes fuel active numPrev).1.length ≤ active.length :=
  ⟨rcLoop_fuel_ge votes fuel active numPrev h, rcLoop_rounds_le votes fuel active numPrev⟩

/-- C10 witness: extra fuel does not change the outcome on a concrete
two-candidate election and the round count is bounded by the active size. -/
theorem spec_C10_witness :
    rcLoop [["a"], ["b"]] 5 ["a", "b"] 0 = rcLoop [["a"], ["b"]] 2 ["a", "b"] 0 ∧
    (rcLoop [["a"], ["b"]] 5 ["a", "b"] 0).1.length ≤ 2 :=
  spec_C10 [["a"], ["b"]] ["a", "b"] 0 5 (by decide)

/-- C1 counterexample: the claim fails as stated. With three ballots, a
book whose identity is the empty string holds 2 first-preference votes,
strictly more than 3 / 2 under real division (recorded by the last two
conjuncts), yet the engine does not declare a majority: line 212 of the
source tests the winner with python truthiness, and the empty string is
falsy, so round 1 is an elimination round with no winner and majority_win
false, and the loop continues. -/
theorem spec_C1_counterexample :
    calculate_ranked_choice_winner [[""], [""], ["x"]] [mkBook (""), mkBook ("x")] =
      [⟨1, [((""), 2), (("x"), 1)], 2, some ("x"), none, false⟩,
       ⟨2, [((""), 3)], 1, none, some (""), false⟩] ∧
    findMajorityWinner (countVotes ["", "x"] [[""], [""], ["x"]]) 3 = some ("") ∧
    mkRat (3 : Int) 2 < ((2 : Nat) : ℚ) := by
  refine ⟨by decide, by decide, by decide⟩

/-- C1 amended: for every round counted over an active set that does not
contain the empty identity (every identity the application builds is of
the form title_author and is nonempty), a book wins outright if and only
if its count strictly exceeds half the ballots under real division: the
majority scan succeeds exactly when some count c satisfies T < 2 * c,
which is exactly the rational comparison T / 2 < c (last conjunct); on a
hit the loop appends the single terminal round with majority_win = true,
the full counts map, the winner, no elimination, and stops; on a miss no
book exceeds the threshold. -/
theorem spec_C1_amended (votes : List Ballot) (fuel numPrev : Nat) (active : List String)
    (hlen : 1 < active.length) (hempty : emptyId ∉ active) :
    ((∃ p ∈ countVotes active votes, votes.length < 2 * p.2) ↔
      ∃ w, findMajorityWinner (countVotes active votes) votes.length = some w) ∧
    (∀ w, findMajorityWinner (countVotes active votes) votes.length = some w →
      (∃ c, (w, c) ∈ countVotes active votes ∧ votes.length < 2 * c) ∧
      rcLoop votes (fuel + 1) active numPrev =
        ([⟨numPrev + 1, countVotes active votes, active.length, none, some w, true⟩],
         active)) ∧
    (findMajorityWinner (countVotes active votes) votes.length = none →
      ∀ p ∈ countVotes active votes, ¬ votes.length < 2 * p.2) ∧
    (∀ T c : Nat, (mkRat (T : Int) 2 < (c : ℚ)) ↔ T < 2 * c) := by
  refine ⟨?_, ?_, ?_, majority_iff_nat⟩
  · constructor
    · intro h
      have hsome := findMajorityWinner_isSome.mpr h
      exact Option.isSome_iff_exists.mp hsome
    · rintro ⟨w, hw⟩
      obtain ⟨c, hwc, hcm⟩ := findMajorityWinner_some hw
      exact ⟨(w, c), hwc, hcm⟩
  · intro w hw
    refine ⟨findMajorityWinner_some hw, ?_⟩
    have hwact : w ∈ active := by
      have h1 := findMajorityWinner_mem_keys hw
      rwa [countVotes_keys] at h1
    have htruthy : truthyId (findMajorityWinner (countVotes active votes) votes.length)
        = true := by
      rw [hw]
      unfold truthyId
      rw [decide_eq_true_eq]
      intro hc
      rw [hc] at hwact
      exact hempty hwact
    rw [rcLoop_majority votes fuel active numPrev (by omega) htruthy, hw]
  · exact findMajorityWinner_none

/-- C1 amended witness: two candidates, a holds 2 of 3 ballots, strictly
above the threshold, and the loop stops with the terminal majority round. -/
theorem spec_C1_amended_witness :
    rcLoop [["a"], ["a"], ["b"]] 2 ["a", "b"] 0 =
      ([⟨1, [(("a"), 2), (("b"), 1)], 2, none, some ("a"), true⟩], ["a", "b"]) :=
  (((spec_C1_amended [["a"], ["a"], ["b"]] 1 0 ["a", "b"] (by decide)
    (by decide)).2.1 ("a") (by decide)).2).trans (by decide)

/-- C5 counterexample: the claim fails as stated. With exactly one
tabulatable candidate the engine does not return the empty sequence: the
while loop is skipped and the final block appends one terminal round
giving the sole candidate every ballot. -/
theorem spec_C5_counterexample :
    calculate_ranked_choice_winner [["a"]] [mkBook ("a")] =
      [⟨1, [(("a"), 1)], 1, none, some ("a"), false⟩] ∧
    calculate_ranked_choice_winner [["a"]] [mkBook ("a")] ≠ [] := by
  constructor
  · decide
  · decide

/-- C5 amended: with no ballots or zero tabulatable candidates the result
is empty (and no error is raised: the function is total); with exactly one
tabulatable candidate the result is not empty but a single terminal round
declaring that candidate the winner with all ballots. -/
theorem spec_C5_amended (votes : List Ballot) (books : List Book) :
    ((votes = [] ∨ initialActive votes books = []) →
      calculate_ranked_choice_winner votes books = []) ∧
    (∀ a, initialActive votes books = [a] →
      calculate_ranked_choice_winner votes books =
        [⟨1, [(a, votes.length)], 1, none, some a, false⟩]) := by
  constructor
  · rintro (hv | ha)
    · exact calc_empty_guard (Or.inl (List.isEmpty_iff.mpr hv))
    · by_cases h1 : votes.isEmpty ∨ books.isEmpty
      · exact calc_empty_guard h1
      · exact calc_no_active h1 (List.isEmpty_iff.mpr ha)
  · intro a hact
    have h1 : ¬ (votes.isEmpty ∨ books.isEmpty) := by
      rintro (hv | hb)
      · rw [List.isEmpty_iff] at hv
        have hnil : initialActive votes books = [] := by
          rw [initialActive_eq_nil_iff]
          intro bk _ b hb2
          rw [hv] at hb2
          cases hb2
        rw [hact] at hnil
        cases hnil
      · rw [List.isEmpty_iff] at hb
        have hnil : initialActive votes books = [] := by
          rw [initialActive_eq_nil_iff]
          intro bk hbk
          rw [hb] at hbk
          cases hbk
        rw [hact] at hnil
        cases hnil
    have h2 : ¬ (initialActive votes books).isEmpty := by
      rw [List.isEmpty_iff, hact]
      intro hc
      cases hc
    have hloop : rcLoop votes ([a].length) [a] 0 = ([], [a]) :=
      rcLoop_exit votes 0 [a] 0 (by simp)
    have h3 : (rcLoop votes (initialActive votes books).length
        (initialActive votes books) 0).2.length = 1 := by
      rw [hact, hloop]
      rfl
    rw [calc_final_round h1 h2 h3, hact, hloop]
    rfl

/-- C5 amended witness: a single tabulatable candidate yields exactly one
terminal round. -/
theorem spec_C5_amended_witness :
    calculate_ranked_choice_winner [["a"]] [mkBook ("a")] =
      [⟨1, [(("a"), 1)], 1, none, some ("a"), false⟩] :=
  (spec_C5_amended [["a"]] [mkBook ("a")]).2 ("a") (by decide)

/-- C4: tabulation returns the empty sequence exactly when the ballots map
is empty, the book list is empty, or no ballot mentions a known book
identity; in every other case the returned sequence is nonempty, its last
round carries a winner, and no earlier round does. -/
theorem spec_C4 (votes : List Ballot) (books : List Book) :
    (calculate_ranked_choice_winner votes books = [] ↔
      votes = [] ∨ books = [] ∨ ∀ bk ∈ books, ∀ b ∈ votes, bk.id ∉ b) ∧
    (calculate_ranked_choice_winner votes books ≠ [] →
      (∃ r, (calculate_ranked_choice_winner votes books).getLast? = some r ∧
        r.winner.isSome = true) ∧
      ∀ r ∈ (calculate_ranked_choice_winner votes books).dropLast, r.winner = none) := by
  by_cases hD : votes = [] ∨ books = [] ∨ ∀ bk ∈ books, ∀ b ∈ votes, bk.id ∉ b
  · have hcalc : calculate_ranked_choice_winner votes books = [] := by
      rcases hD with h | h | h
      · exact calc_empty_guard (Or.inl (List.isEmpty_iff.mpr h))
      · exact calc_empty_guard (Or.inr (List.isEmpty_iff.mpr h))
      · by_cases h1 : votes.isEmpty ∨ books.isEmpty
        · exact calc_empty_guard h1
        · exact calc_no_active h1 (List.isEmpty_iff.mpr (initialActive_eq_nil_iff.mpr h))
    rw [hcalc]
    exact ⟨iff_of_true rfl hD, fun hne => absurd rfl hne⟩
  · have hDneg := hD
    push_neg at hD
    obtain ⟨hv, hb, hex⟩ := hD
    have h1 : ¬ (votes.isEmpty ∨ books.isEmpty) := by
      rintro (hc | hc) <;> rw [List.isEmpty_iff] at hc
      · exact hv hc
      · exact hb hc
    have hactne : initialActive votes books ≠ [] := by
      rw [Ne, initialActive_eq_nil_iff]
      push_neg
      exact hex
    have h2 : ¬ (initialActive votes books).isEmpty := by
      rw [List.isEmpty_iff]
      exact hactne
    have hlen1 : 1 ≤ (initialActive votes books).length := List.length_pos.mpr hactne
    obtain ⟨⟨hA1, hA2⟩, _, _⟩ := rcLoop_shape votes (initialActive votes books).length
      (initialActive votes books) 0 hlen1 (le_refl _) (initialActive_nodup votes books)
    by_cases h3 : (rcLoop votes (initialActive votes books).length
        (initialActive votes books) 0).2.length = 1
    · rw [calc_final_round h1 h2 h3]
      refine ⟨iff_of_false (by simp) hDneg, fun _ => ⟨⟨_, List.getLast?_concat _, rfl⟩, ?_⟩⟩
      rw [List.dropLast_concat]
      exact hA1 h3
    · rw [calc_no_final h1 h2 h3]
      obtain ⟨rs₀, r₀, hdec, hsome, hnone⟩ := hA2 h3
      rw [hdec]
      refine ⟨iff_of_false (by simp) ?_, fun _ => ⟨⟨r₀, List.getLast?_concat _, hsome⟩, ?_⟩⟩
      · exact hDneg
      · rw [List.dropLast_concat]
        exact hnone

/-- C4 witness: a two-candidate election is nonempty, ends in a winner
round, and has no winner before the last round. -/
theorem spec_C4_witness :
    (∃ r, (calculate_ranked_choice_winner [["a"], ["b"]]
        [mkBook ("a"), mkBook ("b")]).getLast? = some r ∧ r.winner.isSome = true) ∧
    ∀ r ∈ (calculate_ranked_choice_winner [["a"], ["b"]]
        [mkBook ("a"), mkBook ("b")]).dropLast, r.winner = none :=
  (spec_C4 [["a"], ["b"]] [mkBook ("a"), mkBook ("b")]).2 (by decide)

/-- C6: across the produced round sequence the recorded active-set size
never increases from one round to the next; and every round that records
an elimination eliminates a member of the active set of its loop
iteration, records that set size, and the erasure removes exactly one
book from the active set. -/
theorem spec_C6 (votes : List Ballot) (books : List Book) :
    List.Chain' (fun a b => b.active_books ≤ a.active_books)
      (calculate_ranked_choice_winner votes books) ∧
    (∀ (fuel numPrev : Nat) (active : List String) (r : Round),
      (rcLoop votes fuel active numPrev).1.head? = some r →
      ∀ e, r.eliminated = some e →
        e ∈ active ∧ r.active_books = active.length ∧
        (active.erase e).length + 1 = active.length) := by
  constructor
  · by_cases h1 : votes.isEmpty ∨ books.isEmpty
    · rw [calc_empty_guard h1]
      exact List.chain'_nil
    · by_cases h2 : (initialActive votes books).isEmpty
      · rw [calc_no_active h1 h2]
        exact List.chain'_nil
      · have hactne : initialActive votes books ≠ [] := by
          intro hc
          exact h2 (List.isEmpty_iff.mpr hc)
        have hlen1 : 1 ≤ (initialActive votes books).length := List.length_pos.mpr hactne
        obtain ⟨_, ⟨hB1, hB2, _⟩, _⟩ := rcLoop_shape votes (initialActive votes books).length
          (initialActive votes books) 0 hlen1 (le_refl _) (initialActive_nodup votes books)
        by_cases h3 : (rcLoop votes (initialActive votes books).length
            (initialActive votes books) 0).2.length = 1
        · rw [calc_final_round h1 h2 h3]
          rw [List.chain'_append]
          refine ⟨hB1, List.chain'_singleton _, ?_⟩
          intro x hx y hy
          simp only [List.head?_cons, Option.mem_def, Option.some.injEq] at hy
          rw [← hy]
          simp only
          exact hB2 x (List.mem_of_mem_getLast? hx)
        · rw [calc_no_final h1 h2 h3]
          exact hB1
  · intro fuel numPrev active r hr e he
    cases fuel with
    | zero =>
      rw [rcLoop_zero] at hr
      simp at hr
    | succ f =>
      by_cases hx : active.length ≤ 1
      · rw [rcLoop_exit votes f active numPrev hx] at hr
        simp at hr
      · have hne : active ≠ [] := by
          intro hc
          subst hc
          simp at hx
        have hpos : 0 < active.length := List.length_pos.mpr hne
        have htne : eliminationTieSet active votes (countVotes active votes) ≠ [] :=
          eliminationTieSet_ne_nil votes (countVotes_keys active votes) hne
        have hmem := eliminated_mem_active votes hne
        by_cases hmaj :
            truthyId (findMajorityWinner (countVotes active votes) votes.length) = true
        · rw [rcLoop_majority votes f active numPrev hx hmaj] at hr
          simp only [List.head?_cons, Option.some.injEq] at hr
          subst hr
          simp only at he
          cases he
        · have hmajf : truthyId (findMajorityWinner (countVotes active votes) votes.length)
              = false := Bool.eq_false_iff.mpr hmaj
          by_cases htie :
              (eliminationTieSet active votes (countVotes active votes)).length
                = active.length
          · rw [rcLoop_totalTie votes f active numPrev hx hmajf htie] at hr
            simp only [List.head?_cons, Option.some.injEq] at hr
            subst hr
            simp only [Option.some.injEq] at he
            subst he
            refine ⟨hmem, rfl, ?_⟩
            rw [List.length_erase_of_mem hmem]
            omega
          · rw [rcLoop_elim votes f active numPrev hx hmajf htie] at hr
            simp only [List.head?_cons, Option.some.injEq] at hr
            subst hr
            simp only [Option.some.injEq] at he
            subst he
            refine ⟨hmem, rfl, ?_⟩
            rw [List.length_erase_of_mem hmem]
            omega

/-- C6 witness: in a concrete total-tie election the first round
eliminates the book a, which is active, the recorded size matches, and
erasing it removes exactly one book. -/
theorem spec_C6_witness :
    ("a") ∈ (["a", "b"] : List String) ∧
      (⟨1, [(("a"), 1), (("b"), 1)], 2, some ("a"), none, false⟩ : Round).active_books =
        (["a", "b"] : List String).length ∧
      ((["a", "b"] : List String).erase ("a")).length + 1 =
        (["a", "b"] : List String).length :=
  (spec_C6 [["a"], ["b"]] []).2 2 0 ["a", "b"]
    ⟨1, [(("a"), 1), (("b"), 1)], 2, some ("a"), none, false⟩ (by decide) ("a") (by decide)

/-- C7: every round with no winner (equivalently, by C4, every non-final
round) records counts that sum to at most the number of ballots, and the
sum equals the number of ballots whenever every ballot ranks at least one
book that is still active in that round (the keys of the counts map of the
round are exactly its active books). -/
theorem spec_C7 (votes : List Ballot) (books : List Book) :
    ∀ r ∈ calculate_ranked_choice_winner votes books, r.winner = none →
      sumCounts r.vote_counts ≤ votes.length ∧
      ((∀ b ∈ votes, ∃ bid ∈ b, bid ∈ r.vote_counts.map Prod.fst) →
        sumCounts r.vote_counts = votes.length) := by
  intro r hr hw
  obtain ⟨h1, h2, hcase⟩ := calc_cases hr
  rcases hcase with hin | hfin
  · have hactne : initialActive votes books ≠ [] := by
      intro hc
      exact h2 (List.isEmpty_iff.mpr hc)
    have hlen1 : 1 ≤ (initialActive votes books).length := List.length_pos.mpr hactne
    obtain ⟨_, _, hC⟩ := rcLoop_shape votes (initialActive votes books).length
      (initialActive votes books) 0 hlen1 (le_refl _) (initialActive_nodup votes books)
    obtain ⟨act, hactnd, hcounts⟩ := hC r hin hw
    constructor
    · rw [hcounts, sumCounts_countVotes hactnd]
      exact List.countP_le_length _
    · intro hall
      rw [hcounts, sumCounts_countVotes hactnd, List.countP_eq_length]
      intro b hb
      obtain ⟨bid, hbid, hbidact⟩ := hall b hb
      rw [hcounts, countVotes_keys] at hbidact
      exact firstActiveChoice_isSome.mpr ⟨bid, hbid, hbidact⟩
  · rw [hfin] at hw
    cases hw

/-- C7 witness: in the first round of a concrete total-tie election the
counts sum to the ballot total, and no ballot is exhausted. -/
theorem spec_C7_witness :
    sumCounts [(("a"), 1), (("b"), 1)] ≤ 2 ∧ sumCounts [(("a"), 1), (("b"), 1)] = 2 := by
  have h := spec_C7 [["a", "b"], ["b", "a"]] [mkBook ("a"), mkBook ("b")]
    ⟨1, [(("a"), 1), (("b"), 1)], 2, some ("a"), none, false⟩ (by decide) (by decide)
  exact ⟨h.1, h.2 (by decide)⟩
